import Mathlib

/-!
Shallow embedding of the t9nKit translation core (src/core/translator.ts,
src/core/helpers.ts, src/loaders/json-loader.ts).

JavaScript records (plain objects and `Map`s) are modelled as association
lists with insertion-order semantics: reading finds the first matching key,
assignment replaces the value in place or appends a fresh entry at the end.
`undefined` is modelled by `Option`.  Exceptions thrown by the code are
modelled by an `Option` result (`none` = a thrown exception).
-/

namespace T9n

/-- First-match lookup: JS `obj[key]` / `map.get(key)` (for absent keys the
result is `undefined`, i.e. `none`). -/
def jsGet {α : Type} : List (String × α) → String → Option α
  | [], _ => none
  | (k, v) :: rest, key => if k = key then some v else jsGet rest key

/-- In-place update or append: JS `obj[key] = v` / `map.set(key, v)`. -/
def jsSet {α : Type} : List (String × α) → String → α → List (String × α)
  | [], key, v => [(key, v)]
  | (k, w) :: rest, key, v =>
      if k = key then (k, v) :: rest else (k, w) :: jsSet rest key v

/-- JS `delete` / `map.delete(key)`: removes the entry for `key`. -/
def jsDelete {α : Type} (m : List (String × α)) (key : String) : List (String × α) :=
  m.filter (fun kv => kv.1 ≠ key)

/-- JS object spread `\x7b ...a, ...b \x7d`: start from `a` and assign every
entry of `b` in order. -/
def jsSpread2 {α : Type} (a b : List (String × α)) : List (String × α) :=
  b.foldl (fun acc kv => jsSet acc kv.1 kv.2) a

/-- A runtime interpolation-parameter value (`TranslationParams` maps names to
`string | number | boolean`; numeric counts are modelled as integers). -/
inductive PValue : Type where
  | s (v : String)
  | n (v : Int)
  | b (v : Bool)
deriving DecidableEq, Repr

/-- JS `String(value)` on a parameter value. -/
def PValue.jsString : PValue → String
  | .s v => v
  | .n v => toString v
  | .b true => "true"
  | .b false => "false"

/-- `TranslationValue` (src/core/types.ts): a template string, a translation
function, or a nested object (plural objects are ordinary objects whose
fields happen to be named `zero`/`one`/`other`). -/
inductive TValue : Type where
  | str (s : String)
  | func (f : List (String × PValue) → String)
  | obj (fields : List (String × TValue))

/-- A per-key translation tree (`Record<string, TranslationValue>`). -/
abbrev Tree := List (String × TValue)

/-- A namespace's data (`Record<LanguageCode, Record<string, TranslationValue>>`). -/
abbrev LangMap := List (String × Tree)

/-- JS optional-chained property access `current?.[key]` as used by
`getNestedValue`; translation trees only ever contain strings, functions and
plain objects, and only object property access yields a value (exotic
property reads such as numeric indices into strings are outside the
translation-value shape and not modelled). -/
def jsIndex : Option TValue → String → Option TValue
  | some (.obj fields), k => jsGet fields k
  | _, _ => none

/-- JS `str.split(sep)` for a one-character separator, on character lists
(`"".split(".")` is `[""]`, separators at the ends produce empty segments). -/
def splitOnChar (c : Char) : List Char → List (List Char)
  | [] => [[]]
  | d :: s =>
      if d = c then [] :: splitOnChar c s
      else
        match splitOnChar c s with
        | seg :: rest => (d :: seg) :: rest
        | [] => [[d]]

/-- `path.split(".")`. -/
def splitPath (path : String) : List String :=
  (splitOnChar '.' path.data).map String.mk

/-- `getNestedValue` (src/core/helpers.ts): split the path on `.` and walk
the segments with `current?.[key]`. -/
def getNestedValue (tree : Option Tree) (path : String) : Option TValue :=
  (splitPath path).foldl jsIndex (tree.map TValue.obj)

/-!
`interpolate` builds `new RegExp("\\\x7b" + key + "\\\x7d", "g")` from the raw
parameter name and replaces every match.  We model the fragment of JS RegExp
syntax that these patterns can exercise: escaped braces (`\\\x7b`, `\\\x7d`)
are literals, ordinary characters are literals, and `+` is the greedy
one-or-more quantifier applied to the preceding literal.  All remaining
metacharacters of the pattern grammar are mapped to a compilation failure
(`none`), modelling the `SyntaxError` thrown by the `RegExp` constructor;
dollar escapes in the replacement string are not modelled (theorems only
evaluate replacements without `$`).
-/

/-- A compiled regex atom: a literal character, its one-or-more repetition,
or (internal, produced only while matching) its zero-or-more repetition. -/
inductive RAtom : Type where
  | lit (c : Char)
  | plus (c : Char)
  | star (c : Char)
deriving DecidableEq, Repr

/-- Characters that are special in the JS RegExp pattern grammar. -/
def regexMeta : List Char :=
  ['\\', '^', '$', '.', '*', '+', '?', '(', ')', '[', ']', '\x7b', '\x7d', '|']

/-- Compile a pattern string (accumulator holds atoms in reverse): an
escaped brace is a literal, `+` quantifies the preceding literal, any other
metacharacter fails, anything else is a literal. -/
def compileAux : List Char → List RAtom → Option (List RAtom)
  | [], acc => some acc.reverse
  | c :: rest, acc =>
      if c = '\\' then
        match rest with
        | [] => none
        | c2 :: rest2 =>
            if c2 = '\x7b' ∨ c2 = '\x7d' then compileAux rest2 (.lit c2 :: acc) else none
      else if c = '+' then
        match acc with
        | .lit d :: tail => compileAux rest (.plus d :: tail)
        | _ => none
      else if c ∈ regexMeta then none
      else compileAux rest (.lit c :: acc)

/-- Greedy backtracking matcher, fuel-structural.  Returns the remainder of
the input after the match.  `plus c` consumes one `c` and continues as
`star c`; `star c` prefers consuming another `c` and falls back to the rest
of the pattern. -/
def matchF : Nat → List RAtom → List Char → Option (List Char)
  | 0, _, _ => none
  | _ + 1, [], s => some s
  | f + 1, .lit c :: r, s =>
      match s with
      | [] => none
      | d :: tl => if d = c then matchF f r tl else none
  | f + 1, .plus c :: r, s =>
      match s with
      | [] => none
      | d :: tl => if d = c then matchF f (.star c :: r) tl else none
  | f + 1, .star c :: r, s =>
      match s with
      | [] => matchF f r []
      | d :: tl =>
          if d = c then
            match matchF f (.star c :: r) tl with
            | some t => some t
            | none => matchF f r (d :: tl)
          else matchF f r (d :: tl)

/-- Fuel that always suffices for `matchF` (each step shrinks
`atoms + 2 * input`). -/
def matchFuel (atoms : List RAtom) (s : List Char) : Nat :=
  atoms.length + 2 * s.length + 1

/-- Try to match `atoms` at the start of `s`. -/
def matchAtoms (atoms : List RAtom) (s : List Char) : Option (List Char) :=
  matchF (matchFuel atoms s) atoms s

/-- Global replacement (`String.prototype.replace` with a `g` regex): scan
left to right, replace each leftmost match and continue after it.  The
patterns built by `interpolate` always consume at least one character, so
the fuel `s.length + 1` and the length guard are never exhausted on them. -/
def replAux (atoms : List RAtom) (repl : List Char) : Nat → List Char → List Char
  | 0, s => s
  | _ + 1, [] => []
  | f + 1, d :: s =>
      match matchAtoms atoms (d :: s) with
      | some rest =>
          if rest.length ≤ s.length then repl ++ replAux atoms repl f rest
          else d :: replAux atoms repl f s
      | none => d :: replAux atoms repl f s

/-- `text.replace(regex, repl)` with a global regex. -/
def replaceAll (atoms : List RAtom) (repl : List Char) (s : List Char) : List Char :=
  replAux atoms repl (s.length + 1) s

/-- The pattern string `interpolate` builds for a parameter name. -/
def buildPattern (key : String) : String := "\\\x7b" ++ key ++ "\\\x7d"

/-- One `reduce` step of `interpolate`: `result.replace(new RegExp(...), String(value))`.
A `none` accumulator or a failed pattern compilation models a thrown
exception. -/
def interpStep (acc : Option String) (kv : String × PValue) : Option String :=
  match acc with
  | none => none
  | some res =>
      match compileAux (buildPattern kv.1).data [] with
      | none => none
      | some atoms => some (String.mk (replaceAll atoms kv.2.jsString.data res.data))

/-- `interpolate` (src/core/helpers.ts): fold the parameter entries over the
template, replacing every occurrence of `\x7b`name`\x7d`. -/
def interpolate (text : String) (params : List (String × PValue)) : Option String :=
  params.foldl interpStep (some text)

/-- `getPluralForm` (src/core/helpers.ts): strict-equality tests of the count
against `0` and `1`; the language argument is ignored. -/
inductive PluralForm : Type where
  | zero
  | one
  | other
deriving DecidableEq, Repr

/-- The property name each plural form selects. -/
def PluralForm.key : PluralForm → String
  | .zero => "zero"
  | .one => "one"
  | .other => "other"

/-- `getPluralForm(count, lang)`: `count === 0` → zero, `count === 1` → one,
otherwise other.  The count arrives as a runtime value; strict equality with
a number literal only succeeds on that number. -/
def getPluralForm (count : PValue) (lang : String) : PluralForm :=
  if count = PValue.n 0 then .zero
  else if count = PValue.n 1 then .one
  else .other

/-!  The `T9nKit` class (src/core/translator.ts). -/

/-- `T9nKitConfig` after the constructor's `\x7b warnOnMissing: true, ...config \x7d`
defaulting (every field below is materialized). -/
structure T9nConfig : Type where
  translations : List (String × Tree)
  defaultLanguage : String
  languages : Option (List (String × String)) := none
  warnOnMissing : Bool := true
  defaultNamespace : Option String := none

/-- The mutable instance state: current language, the namespace store, the
set of namespace names having a registered loader, the in-flight promise per
cache key (identified by a fresh number) and the loaded-key set.  Promises
are identified by numbers drawn from `nextPromiseId`. -/
structure KitState : Type where
  config : T9nConfig
  currentLanguage : String
  namespaceStore : List (String × LangMap) := []
  loaders : List String := []
  loadingPromises : List (String × Nat) := []
  loadedSet : List String := []
  nextPromiseId : Nat := 0

/-- `this.warn(message)`: emits `[t9nKit] message` when `warnOnMissing` is
enabled, nothing otherwise. -/
def warn (cfg : T9nConfig) (msg : String) : List String :=
  if cfg.warnOnMissing then ["[t9nKit] " ++ msg] else []

/-- JS `lang || this.currentLanguage`: an omitted (`undefined`) or empty
(falsy) language argument falls back to the current language. -/
def jsOrLang (lang : Option String) (current : String) : String :=
  match lang with
  | some l => if l = "" then current else l
  | none => current

/-- `setLanguage(lang)`: rejected (state unchanged, warning) when
`this.config.translations[lang]` is absent; record values are objects and
hence always truthy when present. -/
def setLanguage (st : KitState) (lang : String) : KitState × List String :=
  if (jsGet st.config.translations lang).isSome then
    ({ st with currentLanguage := lang }, [])
  else
    (st, warn st.config ("Language \"" ++ lang ++ "\" not found in translations"))

/-- Split the input at the first `:` (`key.indexOf(":")` / `slice`). -/
def splitAtFirstColon : List Char → Option (List Char × List Char)
  | [] => none
  | c :: cs =>
      if c = ':' then some ([], cs)
      else
        match splitAtFirstColon cs with
        | some (a, b) => some (c :: a, b)
        | none => none

/-- `parseKey(key)`: namespace before the first `:`, path after it; no
namespace when the key has no colon. -/
def parseKey (key : String) : Option String × String :=
  match splitAtFirstColon key.data with
  | some (ns, path) => (some (String.mk ns), String.mk path)
  | none => (none, key)

/-- One iteration of the per-language merge loop of `addNamespace`:
`existing[lang] = existing[lang] ? \x7b ...existing[lang], ...incoming[lang] \x7d : incoming[lang]`. -/
def mergeStep (ex : LangMap) (kv : String × Tree) : LangMap :=
  match jsGet ex kv.1 with
  | some exTree => jsSet ex kv.1 (jsSpread2 exTree kv.2)
  | none => jsSet ex kv.1 kv.2

/-- The per-language merge loop of `addNamespace` on an existing namespace:
for each incoming language, spread-merge over the existing tree or install
the incoming tree verbatim. -/
def mergeLangMaps (existing incoming : LangMap) : LangMap :=
  incoming.foldl mergeStep existing

/-- `addNamespace(name, translations)`: merge into an existing namespace or
store the (shallow-copied) map as a new entry. -/
def addNamespace (st : KitState) (name : String) (translations : LangMap) : KitState :=
  match jsGet st.namespaceStore name with
  | some existing =>
      { st with namespaceStore := jsSet st.namespaceStore name (mergeLangMaps existing translations) }
  | none => { st with namespaceStore := st.namespaceStore ++ [(name, translations)] }

/-- `hasNamespace(name)`: data present or a loader registered. -/
def hasNamespace (st : KitState) (name : String) : Bool :=
  (jsGet st.namespaceStore name).isSome || st.loaders.contains name

/-- `getNamespaces()`: the namespace store's keys. -/
def getNamespaces (st : KitState) : List String :=
  st.namespaceStore.map (fun kv => kv.1)

/-- Character-list prefix test. -/
def charsPrefix : List Char → List Char → Bool
  | [], _ => true
  | _ :: _, [] => false
  | p :: ps, s :: ss => p = s && charsPrefix ps ss

/-- JS `key.startsWith(p)` on our string model. -/
def strStartsWith (s p : String) : Bool :=
  charsPrefix p.data s.data

/-- `removeNamespace(name)`: delete the data and every loaded marker whose
key starts with `name ++ ":"` (deleting while iterating a JS `Set` visits
each remaining element once, i.e. it filters). -/
def removeNamespace (st : KitState) (name : String) : KitState :=
  { st with
    namespaceStore := jsDelete st.namespaceStore name,
    loadedSet := st.loadedSet.filter (fun k => ¬ strStartsWith k (name ++ ":")) }

/-- `registerLoader(namespace, loader)`: remembers that a loader exists. -/
def registerLoader (st : KitState) (namespace_ : String) : KitState :=
  if st.loaders.contains namespace_ then st
  else { st with loaders := st.loaders ++ [namespace_] }

/-- The cache key `"$\x7bnamespace\x7d:$\x7btargetLang\x7d"`. -/
def cacheKeyOf (ns lang : String) : String := ns ++ ":" ++ lang

/-- `isNamespaceLoaded(namespace, lang?)`. -/
def isNamespaceLoaded (st : KitState) (ns : String) (lang : Option String) : Bool :=
  st.loadedSet.contains (cacheKeyOf ns (jsOrLang lang st.currentLanguage))

/-- What a single synchronous `loadNamespace` entry observed: already loaded,
joined an in-flight promise, no loader registered, or started a fresh load
(invoking the loader exactly in this last case). -/
inductive LoadResult : Type where
  | alreadyLoaded
  | joined (pid : Nat)
  | noLoader
  | started (pid : Nat)
deriving DecidableEq, Repr

/-- The synchronous prefix of `loadNamespace(namespace, lang?)`, which runs
atomically on the JS event loop before any suspension: return early when the
cache key is loaded; return the existing in-flight promise when one exists;
warn and return when no loader is registered; otherwise invoke the loader,
register a fresh in-flight promise under the cache key and return it. -/
def loadNamespaceEntry (st : KitState) (ns : String) (lang : Option String) :
    LoadResult × KitState × List String :=
  let targetLang := jsOrLang lang st.currentLanguage
  let ck := cacheKeyOf ns targetLang
  if st.loadedSet.contains ck then (.alreadyLoaded, st, [])
  else
    match jsGet st.loadingPromises ck with
    | some pid => (.joined pid, st, [])
    | none =>
        if st.loaders.contains ns then
          (.started st.nextPromiseId,
           { st with
              loadingPromises := jsSet st.loadingPromises ck st.nextPromiseId,
              nextPromiseId := st.nextPromiseId + 1 },
           [])
        else (.noLoader, st, warn st.config ("No loader registered for namespace \"" ++ ns ++ "\""))

/-- `loadedSet.add(key)` (a JS `Set` ignores duplicates). -/
def jsSetAdd (l : List String) (k : String) : List String :=
  if l.contains k then l else l ++ [k]

/-- The completion of an in-flight load: on success (`some translations`)
merge the result into the store and mark the cache key loaded; in all cases
(the `finally` block) remove the in-flight promise. -/
def loadNamespaceComplete (st : KitState) (ns targetLang : String)
    (outcome : Option Tree) : KitState :=
  let ck := cacheKeyOf ns targetLang
  match outcome with
  | some translations =>
      let st1 := addNamespace st ns [(targetLang, translations)]
      { st1 with
        loadedSet := jsSetAdd st1.loadedSet ck,
        loadingPromises := jsDelete st1.loadingPromises ck }
  | none => { st with loadingPromises := jsDelete st.loadingPromises ck }

/-- The settled state of the promise `loadNamespace` hands back: the async
body has a `try`/`finally` with no `catch`, so the promise resolves exactly
when the loader resolved and rejects (propagating the failure to every
caller holding it) exactly when the loader rejected. -/
def loadPromiseOutcome (outcome : Option Tree) : Except Unit Unit :=
  match outcome with
  | some _ => .ok ()
  | none => .error ()

/-- `n` back-to-back synchronous `loadNamespace` entries (the interleaving of
`n` concurrent callers before any loader completes). -/
def loadEntryN (st : KitState) (ns : String) (lang : Option String) :
    Nat → List LoadResult × KitState
  | 0 => ([], st)
  | n + 1 =>
      let (r, st1, _) := loadNamespaceEntry st ns lang
      let (rs, st2) := loadEntryN st1 ns lang n
      (r :: rs, st2)

/-- The two-tier lookup `getNestedValue(data[targetLang], path) ??
getNestedValue(data[defaultLanguage], path)` used for a namespace's data and
for the top-level dictionary alike. -/
def lookupWithFallback (data : LangMap) (targetLang defaultLang path : String) : Option TValue :=
  match getNestedValue (jsGet data targetLang) path with
  | some v => some v
  | none => getNestedValue (jsGet data defaultLang) path

/-- The no-namespace tier of `resolveTranslation`: the configured default
namespace (when set and truthy, i.e. nonempty, and present in the store)
first, then the top-level dictionary. -/
def resolveNoNamespace (st : KitState) (targetLang path : String) : Option TValue :=
  let fromDefaultNs : Option TValue :=
    match st.config.defaultNamespace with
    | some dns =>
        if dns = "" then none
        else
          match jsGet st.namespaceStore dns with
          | some nsData => lookupWithFallback nsData targetLang st.config.defaultLanguage path
          | none => none
    | none => none
  match fromDefaultNs with
  | some v => some v
  | none => lookupWithFallback st.config.translations targetLang st.config.defaultLanguage path

/-- `resolveTranslation(key, targetLang)`: a key whose parsed namespace is
truthy (present and nonempty) resolves only inside that namespace's data
(target language then default language) and never falls through; an empty
parsed namespace is falsy, so such keys take the no-namespace tiers with the
after-colon path. -/
def resolveTranslation (st : KitState) (key : String) (targetLang : String) : Option TValue :=
  match parseKey key with
  | (some ns, path) =>
      if ns = "" then resolveNoNamespace st targetLang path
      else
        match jsGet st.namespaceStore ns with
        | some nsData => lookupWithFallback nsData targetLang st.config.defaultLanguage path
        | none => none
  | (none, path) => resolveNoNamespace st targetLang path

/-- `handlePlural(pluralObj, count, params, lang)`: select the form, take
`pluralObj[form] || pluralObj.other` (an absent or empty-string template is
falsy), merge the count into the parameters and interpolate.  A chosen
"template" that is not a string (absent, an object, a function) makes the
subsequent `replace` call throw, modelled by `none`. -/
def handlePlural (pluralObj : List (String × TValue)) (count : PValue)
    (params : List (String × PValue)) (lang : String) : Option String :=
  let form := getPluralForm count lang
  let selected := jsGet pluralObj form.key
  let text : Option TValue :=
    match selected with
    | some (.str s) => if s = "" then jsGet pluralObj "other" else some (.str s)
    | some v => some v
    | none => jsGet pluralObj "other"
  let finalParams := jsSet params "count" count
  match text with
  | some (.str s) => interpolate s finalParams
  | _ => none

/-- `translate(key, params?, lang?)`: resolve, then branch in source order on
the resolved value — plural object (`"one" in translation` and a defined
`params.count`), function, string, plain object.  The result pairs the
returned string (`none` = a thrown exception) with the warnings emitted. -/
def translate (st : KitState) (key : String) (params : Option (List (String × PValue)))
    (lang : Option String) : Option String × List String :=
  let targetLang := jsOrLang lang st.currentLanguage
  match resolveTranslation st key targetLang with
  | none => (some key, warn st.config ("Translation missing for key: " ++ key))
  | some (.obj fields) =>
      match params.bind (fun p => jsGet p "count") with
      | some c =>
          if (jsGet fields "one").isSome then
            (handlePlural fields c (params.getD []) targetLang, [])
          else
            (some key, warn st.config ("Translation for key \"" ++ key ++ "\" is an object, not a string"))
      | none =>
          (some key, warn st.config ("Translation for key \"" ++ key ++ "\" is an object, not a string"))
  | some (.func f) => (some (f (params.getD [])), [])
  | some (.str s) =>
      match params with
      | some p => (interpolate s p, [])
      | none => (some s, [])

/-- `isPluralObject` (src/loaders/json-loader.ts): the object must have
`one` and `other`, and every key must be one of `zero`/`one`/`other` with a
string value. -/
def isPluralObject (fields : List (String × TValue)) : Bool :=
  if (jsGet fields "one").isSome && (jsGet fields "other").isSome then
    fields.all (fun kv =>
      (kv.1 = "zero" || kv.1 = "one" || kv.1 = "other") &&
      (match jsGet fields kv.1 with
       | some (.str _) => true
       | _ => false))
  else false

/-!  Basic lemmas about the JS record model. -/

theorem jsGet_jsSet_self {α : Type} (m : List (String × α)) (k : String) (v : α) :
    jsGet (jsSet m k v) k = some v := by
  induction m with
  | nil => simp [jsSet, jsGet]
  | cons hd tl ih =>
      obtain ⟨hk, hv⟩ := hd
      by_cases h : hk = k
      · simp [jsSet, jsGet, h]
      · simp [jsSet, jsGet, h, ih]

theorem jsGet_jsSet_ne {α : Type} (m : List (String × α)) (k k' : String) (v : α)
    (h : k' ≠ k) : jsGet (jsSet m k v) k' = jsGet m k' := by
  induction m with
  | nil => simp [jsSet, jsGet, Ne.symm h]
  | cons hd tl ih =>
      obtain ⟨hk, hv⟩ := hd
      by_cases hkk : hk = k
      · subst hkk
        simp [jsSet, jsGet, Ne.symm h]
      · simp [jsSet, jsGet, hkk, ih]

theorem jsGet_jsDelete_self {α : Type} (m : List (String × α)) (k : String) :
    jsGet (jsDelete m k) k = none := by
  induction m with
  | nil => simp [jsDelete, jsGet]
  | cons hd tl ih =>
      obtain ⟨hk, hv⟩ := hd
      by_cases h : hk = k
      · simpa [jsDelete, h] using ih
      · simpa [jsDelete, jsGet, h] using ih

theorem jsGet_jsDelete_ne {α : Type} (m : List (String × α)) (k k' : String)
    (h : k' ≠ k) : jsGet (jsDelete m k) k' = jsGet m k' := by
  induction m with
  | nil => simp [jsDelete, jsGet]
  | cons hd tl ih =>
      obtain ⟨hk, hv⟩ := hd
      by_cases hkk : hk = k
      · subst hkk
        have hdrop : jsDelete ((hk, hv) :: tl) hk = jsDelete tl hk := by
          simp [jsDelete, List.filter_cons]
        rw [hdrop, ih]
        simp [jsGet, Ne.symm h]
      · have hkeep : jsDelete ((hk, hv) :: tl) k = (hk, hv) :: jsDelete tl k := by
          simp [jsDelete, List.filter_cons, hkk]
        rw [hkeep]
        simp [jsGet, ih]

/-- Keys absent from the argument of `jsDelete` are gone from its result. -/
theorem not_mem_keys_jsDelete {α : Type} (m : List (String × α)) (k : String) :
    k ∉ (jsDelete m k).map (fun kv => kv.1) := by
  intro hmem
  obtain ⟨kv, hkv, hfst⟩ := List.mem_map.mp hmem
  have := List.of_mem_filter hkv
  simp [hfst] at this

theorem jsGet_eq_none_of_not_mem_keys {α : Type} (m : List (String × α)) (k : String)
    (h : k ∉ m.map (fun kv => kv.1)) : jsGet m k = none := by
  induction m with
  | nil => rfl
  | cons hd tl ih =>
      obtain ⟨hk, hv⟩ := hd
      simp only [List.map_cons, List.mem_cons, not_or] at h
      have hne : hk ≠ k := Ne.symm h.1
      simp [jsGet, hne, ih h.2]

/-- Reading a spread `\x7b ...a, ...b \x7d` (with `b` a well-formed record,
i.e. duplicate-free keys): entries of `b` win, everything else comes from
`a`. -/
theorem jsGet_jsSpread2 {α : Type} (a b : List (String × α)) (k : String)
    (hnd : (b.map (fun kv => kv.1)).Nodup) :
    jsGet (jsSpread2 a b) k =
      match jsGet b k with
      | some v => some v
      | none => jsGet a k := by
  induction b generalizing a with
  | nil => simp [jsSpread2, jsGet]
  | cons hd tl ih =>
      obtain ⟨hk, hv⟩ := hd
      simp only [List.map_cons, List.nodup_cons] at hnd
      have hstep : jsSpread2 a ((hk, hv) :: tl) = jsSpread2 (jsSet a hk hv) tl := rfl
      rw [hstep, ih _ hnd.2]
      by_cases hkk : hk = k
      · subst hkk
        have htl : jsGet tl hk = none := by
          refine jsGet_eq_none_of_not_mem_keys _ _ ?_
          exact hnd.1
        simp [jsGet, htl, jsGet_jsSet_self]
      · simp [jsGet, hkk, jsGet_jsSet_ne _ _ _ _ (Ne.symm hkk)]

/-- Reading the merged language map of `addNamespace`: a language present in
the incoming map ends up spread-merged over (or installed instead of) the
existing tree; languages not mentioned are untouched. -/
theorem jsGet_mergeLangMaps (existing incoming : LangMap) (lang : String)
    (hnd : (incoming.map (fun kv => kv.1)).Nodup) :
    jsGet (mergeLangMaps existing incoming) lang =
      match jsGet incoming lang with
      | some inc =>
          some (match jsGet existing lang with
                | some ex => jsSpread2 ex inc
                | none => inc)
      | none => jsGet existing lang := by
  induction incoming generalizing existing with
  | nil => simp [mergeLangMaps, jsGet]
  | cons hd tl ih =>
      obtain ⟨hk, hv⟩ := hd
      simp only [List.map_cons, List.nodup_cons] at hnd
      have hstep : mergeLangMaps existing ((hk, hv) :: tl)
          = mergeLangMaps (mergeStep existing (hk, hv)) tl := rfl
      rw [hstep, ih _ hnd.2]
      by_cases hkk : hk = lang
      · subst hkk
        have htl : jsGet tl hk = none := jsGet_eq_none_of_not_mem_keys _ _ hnd.1
        simp only [jsGet, htl, if_pos rfl]
        cases hex : jsGet existing hk with
        | some exTree => simp [mergeStep, hex, jsGet_jsSet_self]
        | none => simp [mergeStep, hex, jsGet_jsSet_self]
      · have hpres : jsGet (mergeStep existing (hk, hv)) lang = jsGet existing lang := by
          cases hex : jsGet existing hk with
          | some exTree => simp [mergeStep, hex, jsGet_jsSet_ne _ _ _ _ (Ne.symm hkk)]
          | none => simp [mergeStep, hex, jsGet_jsSet_ne _ _ _ _ (Ne.symm hkk)]
        simp [jsGet, hkk, hpres]

/-!  String-level lemmas: key parsing and cache-key prefixes. -/

theorem splitAtFirstColon_append (ns rest : List Char) (h : ':' ∉ ns) :
    splitAtFirstColon (ns ++ ':' :: rest) = some (ns, rest) := by
  induction ns with
  | nil => simp [splitAtFirstColon]
  | cons c cs ih =>
      simp only [List.mem_cons, not_or] at h
      have hc : c ≠ ':' := Ne.symm h.1
      simp [splitAtFirstColon, hc, ih h.2]

theorem data_append3 (ns path : String) :
    (ns ++ ":" ++ path).data = ns.data ++ ':' :: path.data := by
  simp [String.data_append]

/-- A key written `ns ++ ":" ++ path` with a colon-free namespace parses back
into that namespace and path. -/
theorem parseKey_namespaced (ns path : String) (h : ':' ∉ ns.data) :
    parseKey (ns ++ ":" ++ path) = (some ns, path) := by
  unfold parseKey
  rw [data_append3, splitAtFirstColon_append ns.data path.data h]

theorem charsPrefix_append (p rest : List Char) : charsPrefix p (p ++ rest) = true := by
  induction p with
  | nil => rfl
  | cons c cs ih => simp [charsPrefix, ih]

/-- A cache key for namespace `ns` always starts with `ns ++ ":"`. -/
theorem cacheKey_startsWith (ns lang : String) :
    strStartsWith (cacheKeyOf ns lang) (ns ++ ":") = true := by
  unfold strStartsWith cacheKeyOf
  rw [data_append3]
  have : (ns ++ ":").data = ns.data ++ [':'] := by simp [String.data_append]
  rw [this]
  have : ns.data ++ ':' :: lang.data = (ns.data ++ [':']) ++ lang.data := by simp
  rw [this, charsPrefix_append]

/-- Filtering out the keys with a given prefix removes every cache key that
carries it. -/
theorem contains_filter_not_startsWith (l : List String) (p ck : String)
    (h : strStartsWith ck p = true) :
    (l.filter (fun k => ¬ strStartsWith k p)).contains ck = false := by
  rw [Bool.eq_false_iff]
  intro hcon
  have hmem : ck ∈ l.filter (fun k => ¬ strStartsWith k p) := List.elem_iff.mp hcon
  have := List.of_mem_filter hmem
  simp [h] at this

/-!  Unfolding lemmas for `translate`. -/

/-- When resolution finds nothing, `translate` warns and returns the key. -/
theorem translate_missing_returns_key (st : KitState) (key : String)
    (params : Option (List (String × PValue))) (lang : Option String)
    (hres : resolveTranslation st key (jsOrLang lang st.currentLanguage) = none) :
    translate st key params lang =
      (some key, warn st.config ("Translation missing for key: " ++ key)) := by
  simp [translate, hres]

/-- When resolution yields an object and `params?.count` is undefined,
`translate` takes the nested-object branch: warn and return the key. -/
theorem translate_obj_without_count (st : KitState) (key : String)
    (params : Option (List (String × PValue))) (lang : Option String)
    (fields : List (String × TValue))
    (hres : resolveTranslation st key (jsOrLang lang st.currentLanguage) = some (.obj fields))
    (hcount : params.bind (fun p => jsGet p "count") = none) :
    translate st key params lang =
      (some key, warn st.config ("Translation for key \"" ++ key ++ "\" is an object, not a string")) := by
  simp [translate, hres, hcount]

/-- When resolution yields an object without a `one` property, `translate`
takes the nested-object branch even when a count is supplied. -/
theorem translate_obj_without_one (st : KitState) (key : String)
    (params : Option (List (String × PValue))) (lang : Option String)
    (fields : List (String × TValue))
    (hres : resolveTranslation st key (jsOrLang lang st.currentLanguage) = some (.obj fields))
    (hone : jsGet fields "one" = none) :
    translate st key params lang =
      (some key, warn st.config ("Translation for key \"" ++ key ++ "\" is an object, not a string")) := by
  cases hcount : params.bind (fun p => jsGet p "count") with
  | none => simp [translate, hres, hcount]
  | some c => simp [translate, hres, hcount, hone]

/-- When resolution yields an object with a `one` property and a count is
supplied, `translate` delegates to `handlePlural` and emits no warning. -/
theorem translate_obj_with_count (st : KitState) (key : String)
    (params : Option (List (String × PValue))) (lang : Option String)
    (fields : List (String × TValue)) (c : PValue)
    (hres : resolveTranslation st key (jsOrLang lang st.currentLanguage) = some (.obj fields))
    (hone : (jsGet fields "one").isSome)
    (hcount : params.bind (fun p => jsGet p "count") = some c) :
    translate st key params lang =
      (handlePlural fields c (params.getD []) (jsOrLang lang st.currentLanguage), []) := by
  simp [translate, hres, hcount, hone]

/-!  Claim theorems. -/

/-- C9: for every language code with no entry in the top-level translations
dictionary, `setLanguage` leaves the whole state (in particular
`currentLanguage`) unchanged and reports the failure (warning emitted when
`warnOnMissing` is enabled); the existence check reads only
`config.translations`, never the namespace store, so the state — including a
namespace store that does contain the language — is arbitrary here. -/
theorem claim_C9_setLanguage_unknown_rejected (st : KitState) (lang : String)
    (h : jsGet st.config.translations lang = none) :
    setLanguage st lang
        = (st, warn st.config ("Language \"" ++ lang ++ "\" not found in translations"))
      ∧ (setLanguage st lang).1.currentLanguage = st.currentLanguage
      ∧ (st.config.warnOnMissing = true → (setLanguage st lang).2 ≠ []) := by
  have hmain : setLanguage st lang
      = (st, warn st.config ("Language \"" ++ lang ++ "\" not found in translations")) := by
    simp [setLanguage, h]
  refine ⟨hmain, by rw [hmain], fun hw => ?_⟩
  rw [hmain]
  simp [warn, hw]

/-- A state whose language `"fr"` exists only inside the namespace store,
not in the top-level dictionary. -/
def frOnlyNamespacedState : KitState :=
  { config := { translations := [("en", [("hello", .str "Hello")])], defaultLanguage := "en" },
    currentLanguage := "en",
    namespaceStore := [("auth", [("fr", [("login", .str "Connexion")])])] }

/-- C9 witness: `"fr"` is served by a namespace yet `setLanguage` rejects it
and keeps `"en"` current. -/
theorem claim_C9_setLanguage_unknown_rejected_witness :
    jsGet frOnlyNamespacedState.config.translations "fr" = none
      ∧ setLanguage frOnlyNamespacedState "fr"
          = (frOnlyNamespacedState, ["[t9nKit] Language \"fr\" not found in translations"]) := by
  refine ⟨rfl, ?_⟩
  have h := claim_C9_setLanguage_unknown_rejected frOnlyNamespacedState "fr" rfl
  rw [h.1]
  rfl

/-- C10: when `translate` resolves an object that carries a `one` property
(a plural object) but `params.count` is undefined, no plural form is
selected: the nested-object branch warns (when enabled) and the original key
comes back unchanged. -/
theorem claim_C10_plural_without_count (st : KitState) (key : String)
    (params : Option (List (String × PValue))) (lang : Option String)
    (fields : List (String × TValue))
    (hres : resolveTranslation st key (jsOrLang lang st.currentLanguage) = some (.obj fields))
    (hone : (jsGet fields "one").isSome)
    (hcount : params.bind (fun p => jsGet p "count") = none) :
    translate st key params lang
        = (some key, warn st.config ("Translation for key \"" ++ key ++ "\" is an object, not a string"))
      ∧ (st.config.warnOnMissing = true → (translate st key params lang).2 ≠ []) := by
  have hmain := translate_obj_without_count st key params lang fields hres hcount
  refine ⟨hmain, fun hw => ?_⟩
  rw [hmain]
  simp [warn, hw]

/-- The fields of a plural object with `one` and `other` templates and no
`zero`. -/
def itemsPluralFields : List (String × TValue) :=
  [("one", TValue.str "1 item"), ("other", TValue.str "{count} items")]

/-- A state with that plural object under the key `"items"`. -/
def itemsPluralState : KitState :=
  { config :=
      { translations := [("en", [("items", TValue.obj itemsPluralFields)])],
        defaultLanguage := "en" },
    currentLanguage := "en" }

/-- C10 witness: a plural object reached without a count returns the key and
warns. -/
theorem claim_C10_plural_without_count_witness :
    translate itemsPluralState "items" (some [("name", .s "x")]) none
      = (some "items", ["[t9nKit] Translation for key \"items\" is an object, not a string"]) := by
  have h := claim_C10_plural_without_count itemsPluralState "items"
    (some [("name", .s "x")]) none itemsPluralFields rfl rfl rfl
  rw [h.1]
  rfl

/-!  C2/C3: deduplicated loads and loader-failure semantics. -/

/-- Did this `loadNamespace` entry invoke the loader? -/
def isStartedResult : LoadResult → Bool
  | .started _ => true
  | _ => false

/-- The state right after a fresh load entry registered its promise. -/
def startedState (st : KitState) (ck : String) : KitState :=
  { st with
    loadingPromises := jsSet st.loadingPromises ck st.nextPromiseId,
    nextPromiseId := st.nextPromiseId + 1 }

theorem loadEntry_fresh (st : KitState) (ns : String) (lang : Option String)
    (hL : st.loadedSet.contains (cacheKeyOf ns (jsOrLang lang st.currentLanguage)) = false)
    (hP : jsGet st.loadingPromises (cacheKeyOf ns (jsOrLang lang st.currentLanguage)) = none)
    (hLoader : st.loaders.contains ns = true) :
    loadNamespaceEntry st ns lang
      = (.started st.nextPromiseId,
         startedState st (cacheKeyOf ns (jsOrLang lang st.currentLanguage)), []) := by
  have hL' : cacheKeyOf ns (jsOrLang lang st.currentLanguage) ∉ st.loadedSet := by
    simpa using hL
  have hLoader' : ns ∈ st.loaders := by simpa using hLoader
  simp [loadNamespaceEntry, hL', hP, hLoader', startedState]

theorem loadEntry_joined (st : KitState) (ns : String) (lang : Option String) (pid : Nat)
    (hL : st.loadedSet.contains (cacheKeyOf ns (jsOrLang lang st.currentLanguage)) = false)
    (hP : jsGet st.loadingPromises (cacheKeyOf ns (jsOrLang lang st.currentLanguage)) = some pid) :
    loadNamespaceEntry st ns lang = (.joined pid, st, []) := by
  have hL' : cacheKeyOf ns (jsOrLang lang st.currentLanguage) ∉ st.loadedSet := by
    simpa using hL
  simp [loadNamespaceEntry, hL', hP]

theorem loadEntryN_joined (ns : String) (lang : Option String) (pid : Nat) (n : Nat)
    (st : KitState)
    (hL : st.loadedSet.contains (cacheKeyOf ns (jsOrLang lang st.currentLanguage)) = false)
    (hP : jsGet st.loadingPromises (cacheKeyOf ns (jsOrLang lang st.currentLanguage)) = some pid) :
    loadEntryN st ns lang n = (List.replicate n (.joined pid), st) := by
  induction n with
  | zero => rfl
  | succ m ih =>
      simp [loadEntryN, loadEntry_joined st ns lang pid hL hP, ih, List.replicate_succ]

theorem countP_replicate_joined (n : Nat) (pid : Nat) :
    (List.replicate n (LoadResult.joined pid)).countP isStartedResult = 0 := by
  induction n with
  | zero => rfl
  | succ m ih => simp [List.replicate_succ, List.countP_cons, ih, isStartedResult]

/-- C2: per (namespace, language) pair at most one load is in flight.  From a
state with nothing loaded and nothing in flight for the cache key and a
registered loader, `n + 1` back-to-back synchronous entries (the
interleaving of `n + 1` concurrent `loadNamespace` calls before any
completion) produce one `started` result — the only kind that invokes the
loader — and `n` `joined` results all carrying the *same* promise id, so all
callers hold the same pending promise and observe its one outcome together;
the loader is invoked exactly once.  And once the pair is marked loaded, an
entry returns immediately without touching the state or the loader. -/
theorem claim_C2_load_dedup :
    (∀ (st : KitState) (ns : String) (lang : Option String) (n : Nat),
      st.loadedSet.contains (cacheKeyOf ns (jsOrLang lang st.currentLanguage)) = false →
      jsGet st.loadingPromises (cacheKeyOf ns (jsOrLang lang st.currentLanguage)) = none →
      st.loaders.contains ns = true →
      (loadEntryN st ns lang (n + 1)).1
          = .started st.nextPromiseId :: List.replicate n (.joined st.nextPromiseId)
        ∧ ((loadEntryN st ns lang (n + 1)).1.countP isStartedResult) = 1)
    ∧ (∀ (st : KitState) (ns : String) (lang : Option String),
        st.loadedSet.contains (cacheKeyOf ns (jsOrLang lang st.currentLanguage)) = true →
        loadNamespaceEntry st ns lang = (.alreadyLoaded, st, [])) := by
  constructor
  · intro st ns lang n hL hP hLoader
    have hck : jsOrLang lang (startedState st
        (cacheKeyOf ns (jsOrLang lang st.currentLanguage))).currentLanguage
        = jsOrLang lang st.currentLanguage := rfl
    have hL1 : (startedState st (cacheKeyOf ns (jsOrLang lang st.currentLanguage))).loadedSet.contains
        (cacheKeyOf ns (jsOrLang lang st.currentLanguage)) = false := hL
    have hP1 : jsGet (startedState st
          (cacheKeyOf ns (jsOrLang lang st.currentLanguage))).loadingPromises
        (cacheKeyOf ns (jsOrLang lang st.currentLanguage)) = some st.nextPromiseId := by
      simp [startedState, jsGet_jsSet_self]
    have hrest := loadEntryN_joined ns lang st.nextPromiseId n
      (startedState st (cacheKeyOf ns (jsOrLang lang st.currentLanguage)))
      (by rw [hck]; exact hL1) (by rw [hck]; exact hP1)
    have hmain : (loadEntryN st ns lang (n + 1)).1
        = .started st.nextPromiseId :: List.replicate n (.joined st.nextPromiseId) := by
      simp [loadEntryN, loadEntry_fresh st ns lang hL hP hLoader, hrest]
    refine ⟨hmain, ?_⟩
    rw [hmain]
    simp [List.countP_cons, countP_replicate_joined, isStartedResult]
  · intro st ns lang hL
    have hL' : cacheKeyOf ns (jsOrLang lang st.currentLanguage) ∈ st.loadedSet := by
      simpa using hL
    simp [loadNamespaceEntry, hL']

/-- A concrete state with a loader registered for `"auth"` and nothing
loaded or in flight. -/
def freshLoaderState : KitState :=
  { config := { translations := [("en", [])], defaultLanguage := "en" },
    currentLanguage := "en",
    loaders := ["auth"] }

/-- The same state after the `"auth"`/`"en"` pair was marked loaded. -/
def loadedAuthState : KitState :=
  { freshLoaderState with loadedSet := ["auth:en"] }

/-- C2 witness: three concurrent callers — one `started`, two `joined` with
the same promise id, loader invoked once; and an already-loaded pair
returns immediately. -/
theorem claim_C2_load_dedup_witness :
    ((loadEntryN freshLoaderState "auth" none 3).1
        = [.started 0, .joined 0, .joined 0]
      ∧ ((loadEntryN freshLoaderState "auth" none 3).1.countP isStartedResult) = 1)
    ∧ loadNamespaceEntry loadedAuthState "auth" none = (.alreadyLoaded, loadedAuthState, []) := by
  constructor
  · have h := claim_C2_load_dedup.1 freshLoaderState "auth" none 2 rfl rfl rfl
    exact ⟨h.1, h.2⟩
  · exact claim_C2_load_dedup.2 loadedAuthState "auth" none rfl

/-- C3: a rejected loader propagates its failure — the promise handed to the
callers settles exactly as the loader did (`try`/`finally`, no `catch`) —
while the failed completion removes the in-flight marker (as does a
successful one), leaves the loaded set, the namespace store and the current
language untouched (so `isNamespaceLoaded` is unchanged and still false),
and a subsequent entry for the same pair with a registered loader starts a
fresh load, invoking the loader again. -/
theorem claim_C3_loader_failure (st : KitState) (ns tlang : String) :
    (loadPromiseOutcome none = .error () ∧ ∀ tr : Tree, loadPromiseOutcome (some tr) = .ok ())
    ∧ (loadNamespaceComplete st ns tlang none).loadedSet = st.loadedSet
    ∧ (loadNamespaceComplete st ns tlang none).namespaceStore = st.namespaceStore
    ∧ (loadNamespaceComplete st ns tlang none).currentLanguage = st.currentLanguage
    ∧ (∀ lng, isNamespaceLoaded (loadNamespaceComplete st ns tlang none) ns lng
          = isNamespaceLoaded st ns lng)
    ∧ jsGet (loadNamespaceComplete st ns tlang none).loadingPromises (cacheKeyOf ns tlang) = none
    ∧ (∀ tr : Tree,
        jsGet (loadNamespaceComplete st ns tlang (some tr)).loadingPromises (cacheKeyOf ns tlang)
          = none)
    ∧ (tlang ≠ "" →
        st.loadedSet.contains (cacheKeyOf ns tlang) = false →
        st.loaders.contains ns = true →
        (loadNamespaceEntry (loadNamespaceComplete st ns tlang none) ns (some tlang)).1
          = .started st.nextPromiseId) := by
  refine ⟨⟨rfl, fun tr => rfl⟩, rfl, rfl, rfl, fun lng => rfl, ?_, ?_, ?_⟩
  · simp [loadNamespaceComplete, jsGet_jsDelete_self]
  · intro tr
    simp [loadNamespaceComplete, jsGet_jsDelete_self]
  · intro hne hL hLoader
    have htl : jsOrLang (some tlang) (loadNamespaceComplete st ns tlang none).currentLanguage
        = tlang := by
      simp [jsOrLang, hne, loadNamespaceComplete]
    have hL' : (loadNamespaceComplete st ns tlang none).loadedSet.contains
        (cacheKeyOf ns (jsOrLang (some tlang)
          (loadNamespaceComplete st ns tlang none).currentLanguage)) = false := by
      rw [htl]
      exact hL
    have hP' : jsGet (loadNamespaceComplete st ns tlang none).loadingPromises
        (cacheKeyOf ns (jsOrLang (some tlang)
          (loadNamespaceComplete st ns tlang none).currentLanguage)) = none := by
      rw [htl]
      simp [loadNamespaceComplete, jsGet_jsDelete_self]
    have hLoader' : (loadNamespaceComplete st ns tlang none).loaders.contains ns = true := hLoader
    have h := loadEntry_fresh (loadNamespaceComplete st ns tlang none) ns (some tlang)
      hL' hP' hLoader'
    rw [h]
    rfl

/-- A state with an in-flight load for `"auth"`/`"en"` (promise id 7). -/
def inFlightAuthState : KitState :=
  { config := { translations := [("en", [])], defaultLanguage := "en" },
    currentLanguage := "en",
    loaders := ["auth"],
    loadingPromises := [("auth:en", 7)],
    nextPromiseId := 8 }

/-- C3 witness: after the in-flight `"auth"`/`"en"` load fails, the marker is
gone, nothing was loaded or stored, and a retry starts a fresh load. -/
theorem claim_C3_loader_failure_witness :
    loadPromiseOutcome none = .error ()
    ∧ (loadNamespaceComplete inFlightAuthState "auth" "en" none).loadedSet = []
    ∧ jsGet (loadNamespaceComplete inFlightAuthState "auth" "en" none).loadingPromises "auth:en"
        = none
    ∧ (loadNamespaceEntry (loadNamespaceComplete inFlightAuthState "auth" "en" none)
        "auth" (some "en")).1 = .started 8 := by
  have h := claim_C3_loader_failure inFlightAuthState "auth" "en"
  refine ⟨h.1.1, ?_, ?_, ?_⟩
  · rw [h.2.1]
    rfl
  · have := h.2.2.2.2.2.1
    simpa [cacheKeyOf] using this
  · have := h.2.2.2.2.2.2.2 (by decide) rfl rfl
    simpa [cacheKeyOf] using this

/-!  C8: removeNamespace clears data and loaded markers but not loaders. -/

/-- C8: `removeNamespace(name)` (for a well-formed namespace name: nonempty
and colon-free, as produced by the `name:path` key syntax) deletes the
namespace's data and clears every loaded marker prefixed by `name ++ ":"`,
so `isNamespaceLoaded` is false for every language and translating
`name ++ ":" ++ path` yields the literal key with the missing-key warning; a
registered loader survives, keeping `hasNamespace` true, while
`getNamespaces()` no longer lists the name. -/
theorem claim_C8_removeNamespace_clears (st : KitState) (name : String)
    (hne : name ≠ "") (hcolon : ':' ∉ name.data) :
    jsGet (removeNamespace st name).namespaceStore name = none
    ∧ (∀ k : String, strStartsWith k (name ++ ":") = true →
        (removeNamespace st name).loadedSet.contains k = false)
    ∧ (∀ lng : Option String, isNamespaceLoaded (removeNamespace st name) name lng = false)
    ∧ (∀ (path : String) (params : Option (List (String × PValue))),
        translate (removeNamespace st name) (name ++ ":" ++ path) params none
          = (some (name ++ ":" ++ path),
             warn st.config ("Translation missing for key: " ++ (name ++ ":" ++ path))))
    ∧ (st.loaders.contains name = true → hasNamespace (removeNamespace st name) name = true)
    ∧ name ∉ getNamespaces (removeNamespace st name) := by
  have hstore : jsGet (removeNamespace st name).namespaceStore name = none :=
    jsGet_jsDelete_self st.namespaceStore name
  have hmarkers : ∀ k : String, strStartsWith k (name ++ ":") = true →
      (removeNamespace st name).loadedSet.contains k = false := by
    intro k hk
    exact contains_filter_not_startsWith st.loadedSet (name ++ ":") k hk
  have hloaded : ∀ lng : Option String,
      isNamespaceLoaded (removeNamespace st name) name lng = false := by
    intro lng
    exact hmarkers _ (cacheKey_startsWith name _)
  have hresolve : ∀ path tl, resolveTranslation (removeNamespace st name) (name ++ ":" ++ path) tl
      = none := by
    intro path tl
    simp [resolveTranslation, parseKey_namespaced name path hcolon, hne, hstore]
  refine ⟨hstore, hmarkers, hloaded, ?_, ?_, ?_⟩
  · intro path params
    exact translate_missing_returns_key (removeNamespace st name) (name ++ ":" ++ path)
      params none (hresolve path _)
  · intro hLoader
    have : name ∈ (removeNamespace st name).loaders := by simpa using hLoader
    simp [hasNamespace, this]
  · exact not_mem_keys_jsDelete st.namespaceStore name

/-- A state with namespace `"auth"` populated, marked loaded for `"en"`, and
a loader registered for it. -/
def loadedRemovableState : KitState :=
  { config := { translations := [("en", [])], defaultLanguage := "en" },
    currentLanguage := "en",
    namespaceStore := [("auth", [("en", [("key", TValue.str "v")])])],
    loaders := ["auth"],
    loadedSet := ["auth:en"] }

/-- C8 witness: after removing `"auth"` the pair is not loaded, the key comes
back literally with a warning, the loader keeps `hasNamespace` true, and the
listing no longer contains `"auth"`. -/
theorem claim_C8_removeNamespace_clears_witness :
    isNamespaceLoaded (removeNamespace loadedRemovableState "auth") "auth" none = false
    ∧ translate (removeNamespace loadedRemovableState "auth") ("auth" ++ ":" ++ "key") none none
        = (some ("auth" ++ ":" ++ "key"), ["[t9nKit] Translation missing for key: auth:key"])
    ∧ hasNamespace (removeNamespace loadedRemovableState "auth") "auth" = true
    ∧ "auth" ∉ getNamespaces (removeNamespace loadedRemovableState "auth") := by
  have h := claim_C8_removeNamespace_clears loadedRemovableState "auth"
    (by decide) (by decide)
  refine ⟨h.2.2.1 none, ?_, h.2.2.2.2.1 rfl, h.2.2.2.2.2⟩
  rw [h.2.2.2.1 "key" none]
  rfl

/-!  C7: addNamespace merges instead of replacing. -/

/-- Read one key of one language's tree inside one namespace of the store. -/
def nsTreeGet (st : KitState) (name lang k : String) : Option TValue :=
  match jsGet st.namespaceStore name with
  | some lm =>
      match jsGet lm lang with
      | some tree => jsGet tree k
      | none => none
  | none => none

/-- A kit with an empty namespace store. -/
def authKit0 : KitState :=
  { config := { translations := [("en", [])], defaultLanguage := "en" },
    currentLanguage := "en" }

/-- After `addNamespace("auth", \x7ben:\x7blogin:"Log in"\x7d\x7d)`. -/
def authKit1 : KitState :=
  addNamespace authKit0 "auth" [("en", [("login", TValue.str "Log in")])]

/-- After the second `addNamespace("auth", \x7ben:\x7blogout:"Log out"\x7d\x7d)`. -/
def authKit2 : KitState :=
  addNamespace authKit1 "auth" [("en", [("logout", TValue.str "Log out")])]

/-- C7: `addNamespace` on an existing namespace merges.  For well-formed
records (duplicate-free keys, as every JS object is): a language present in
the incoming map gets its top-level keys shallow-merged with incoming
winning on collision and existing keys surviving; a language not mentioned
is untouched.  Hence the round trip: adding `auth/login` then `auth/logout`
leaves both `auth:login` and `auth:logout` resolvable. -/
theorem claim_C7_addNamespace_merge :
    (∀ (st : KitState) (name : String) (existing incoming : LangMap) (lang k : String),
      jsGet st.namespaceStore name = some existing →
      (incoming.map (fun kv => kv.1)).Nodup →
      (∀ inc : Tree, jsGet incoming lang = some inc →
        (inc.map (fun kv => kv.1)).Nodup →
        nsTreeGet (addNamespace st name incoming) name lang k
          = (match jsGet inc k with
             | some v => some v
             | none =>
                 match jsGet existing lang with
                 | some ex => jsGet ex k
                 | none => none))
      ∧ (jsGet incoming lang = none →
          nsTreeGet (addNamespace st name incoming) name lang k = nsTreeGet st name lang k))
    ∧ translate authKit2 "auth:login" none none = (some "Log in", [])
    ∧ translate authKit2 "auth:logout" none none = (some "Log out", []) := by
  refine ⟨?_, rfl, rfl⟩
  intro st name existing incoming lang k hns hnd
  have hstore : jsGet (addNamespace st name incoming).namespaceStore name
      = some (mergeLangMaps existing incoming) := by
    simp [addNamespace, hns, jsGet_jsSet_self]
  have hmerge := jsGet_mergeLangMaps existing incoming lang hnd
  constructor
  · intro inc hinc hndinc
    rw [hinc] at hmerge
    cases hex : jsGet existing lang with
    | some ex =>
        rw [hex] at hmerge
        have hspread := jsGet_jsSpread2 ex inc k hndinc
        simp only [nsTreeGet, hstore, hmerge, hspread]
        cases hk : jsGet inc k <;> simp [hk]
    | none =>
        rw [hex] at hmerge
        simp [nsTreeGet, hstore, hmerge]
        cases hk : jsGet inc k <;> simp
  · intro hinc
    rw [hinc] at hmerge
    simp [nsTreeGet, hstore, hmerge, hns]

/-- C7 witness: in the merged state, the key of the first add survives under
the language touched by the second add. -/
theorem claim_C7_addNamespace_merge_witness :
    nsTreeGet authKit2 "auth" "en" "login" = some (TValue.str "Log in") := by
  have h := (claim_C7_addNamespace_merge.1 authKit1 "auth"
      [("en", [("login", TValue.str "Log in")])]
      [("en", [("logout", TValue.str "Log out")])] "en" "login" rfl (by decide)).1
    [("logout", TValue.str "Log out")] rfl (by decide)
  exact h.trans (by rfl)

/-!  C1: explicit-namespace resolution. -/

/-- Explicit-namespace resolution in closed form (nonempty parsed
namespace): only that namespace's data is consulted. -/
theorem resolve_explicit_ns (st : KitState) (key ns path targetLang : String)
    (hparse : parseKey key = (some ns, path)) (hne : ns ≠ "") :
    resolveTranslation st key targetLang
      = (match jsGet st.namespaceStore ns with
         | some nsData =>
             lookupWithFallback nsData targetLang st.config.defaultLanguage path
         | none => none) := by
  simp [resolveTranslation, hparse, hne]

/-- A configuration whose top-level dictionary can serve `"path"` while the
empty-named namespace is registered but empty. -/
def emptyNsState : KitState :=
  { config := { translations := [("en", [("path", TValue.str "TOP")])], defaultLanguage := "en" },
    currentLanguage := "en",
    namespaceStore := [("", [("en", [])])] }

/-- C1 counterexample: the key `":path"` parses to the explicit namespace
`""` with path `"path"`; that namespace is registered and `"path"` is absent
from both of its trees, yet `translate` returns the top-level value `"TOP"`
— not the literal key — because the empty namespace string is falsy and the
lookup falls through to the top-level dictionary. -/
theorem claim_C1_counterexample :
    parseKey ":path" = (some "", "path")
    ∧ jsGet emptyNsState.namespaceStore "" = some [("en", [])]
    ∧ getNestedValue (jsGet ([("en", [])] : LangMap) "en") "path" = none
    ∧ getNestedValue (jsGet ([("en", [])] : LangMap)
        emptyNsState.config.defaultLanguage) "path" = none
    ∧ translate emptyNsState ":path" none none = (some "TOP", [])
    ∧ ("TOP" : String) ≠ ":path" := by
  exact ⟨rfl, rfl, rfl, rfl, rfl, by decide⟩

/-- C1 (amended): for every key whose parsed explicit namespace is nonempty,
`translate` resolves only inside that namespace — target language first,
then the default language — and when the namespace is unknown or the path
is absent from both trees it returns the original key with the missing-key
warning, never falling through to the default namespace or the top-level
dictionary (the state, including both of those tiers, is arbitrary here). -/
theorem claim_C1_explicit_namespace (st : KitState) (key ns path : String)
    (params : Option (List (String × PValue))) (lang : Option String)
    (hparse : parseKey key = (some ns, path)) (hne : ns ≠ "") :
    (∀ (nsData : LangMap) (v : TValue),
      jsGet st.namespaceStore ns = some nsData →
      getNestedValue (jsGet nsData (jsOrLang lang st.currentLanguage)) path = some v →
      resolveTranslation st key (jsOrLang lang st.currentLanguage) = some v)
    ∧ (∀ (nsData : LangMap) (v : TValue),
        jsGet st.namespaceStore ns = some nsData →
        getNestedValue (jsGet nsData (jsOrLang lang st.currentLanguage)) path = none →
        getNestedValue (jsGet nsData st.config.defaultLanguage) path = some v →
        resolveTranslation st key (jsOrLang lang st.currentLanguage) = some v)
    ∧ (jsGet st.namespaceStore ns = none →
        translate st key params lang
          = (some key, warn st.config ("Translation missing for key: " ++ key)))
    ∧ (∀ nsData : LangMap,
        jsGet st.namespaceStore ns = some nsData →
        getNestedValue (jsGet nsData (jsOrLang lang st.currentLanguage)) path = none →
        getNestedValue (jsGet nsData st.config.defaultLanguage) path = none →
        translate st key params lang
          = (some key, warn st.config ("Translation missing for key: " ++ key))) := by
  have hres := resolve_explicit_ns st key ns path (jsOrLang lang st.currentLanguage) hparse hne
  refine ⟨?_, ?_, ?_, ?_⟩
  · intro nsData v hns h1
    rw [hres, hns]
    simp [lookupWithFallback, h1]
  · intro nsData v hns h1 h2
    rw [hres, hns]
    simp [lookupWithFallback, h1, h2]
  · intro hns
    refine translate_missing_returns_key st key params lang ?_
    rw [hres, hns]
  · intro nsData hns h1 h2
    refine translate_missing_returns_key st key params lang ?_
    rw [hres, hns]
    simp [lookupWithFallback, h1, h2]

/-- A kit whose `"auth"` namespace has an `"en"` tree only, with current
language `"es"`, plus an unrelated top-level entry. -/
def authOnlyEnState : KitState :=
  { config := { translations := [("es", [("login", TValue.str "TOPLEVEL")]),
                                 ("en", [("login", TValue.str "TOPLEVEL")])],
                defaultLanguage := "en" },
    currentLanguage := "es",
    namespaceStore := [("auth", [("en", [("login", TValue.str "Log in")])])] }

/-- C1 witness: the default-language fallback inside the namespace fires
(`"es"` tree absent, `"en"` tree hit), and a missing path returns the key
with the warning even though the top-level dictionary could serve it. -/
theorem claim_C1_explicit_namespace_witness :
    resolveTranslation authOnlyEnState "auth:login"
        (jsOrLang none authOnlyEnState.currentLanguage) = some (TValue.str "Log in")
    ∧ translate authOnlyEnState "auth:missing" none none
        = (some "auth:missing", ["[t9nKit] Translation missing for key: auth:missing"]) := by
  constructor
  · exact (claim_C1_explicit_namespace authOnlyEnState "auth:login" "auth" "login"
        none none rfl (by decide)).2.1
      [("en", [("login", TValue.str "Log in")])] (TValue.str "Log in") rfl rfl rfl
  · have h := (claim_C1_explicit_namespace authOnlyEnState "auth:missing" "auth" "missing"
        none none rfl (by decide)).2.2.2
      [("en", [("login", TValue.str "Log in")])] rfl rfl rfl
    rw [h]
    rfl

/-!  C4: which objects the plural branch accepts. -/

/-- An object with a `one` key that is *not* a well-formed plural shape (the
extra key breaks `isPluralObject`). -/
def loosePluralFields : List (String × TValue) :=
  [("one", TValue.str "a"), ("extra", TValue.str "b")]

/-- A kit exposing that object under the key `"k"`. -/
def looseOneState : KitState :=
  { config := { translations := [("en", [("k", TValue.obj loosePluralFields)])],
                defaultLanguage := "en" },
    currentLanguage := "en" }

/-- C4 counterexample: `\x7bone:"a", extra:"b"\x7d` fails the strict plural
shape (`isPluralObject` rejects it), yet with `count = 1` supplied
`translate` handles it as a plural and returns `"a"` — not the original key
`"k"` that the shape-based claim predicts. -/
theorem claim_C4_counterexample :
    isPluralObject loosePluralFields = false
    ∧ translate looseOneState "k" (some [("count", PValue.n 1)]) none = (some "a", [])
    ∧ ("a" : String) ≠ "k" := by
  exact ⟨rfl, rfl, by decide⟩

/-- C4 (amended): `translate` treats a resolved object as a plural exactly
when it has a `one` property and `params.count` is defined — no further
shape validation.  An object without `one`, or reached without a count, is
treated as a plain nested group: warning, original key back, no exception.
The strict `one`/`other`/optional-`zero` all-string shape is enforced only
by the JSON loader's `isPluralObject`, whose acceptance in particular
implies the `one` property that `translate`'s branch tests. -/
theorem claim_C4_plural_branch_condition :
    (∀ (st : KitState) (key : String) (params : Option (List (String × PValue)))
       (lang : Option String) (fields : List (String × TValue)),
      resolveTranslation st key (jsOrLang lang st.currentLanguage) = some (.obj fields) →
      (jsGet fields "one" = none ∨ params.bind (fun p => jsGet p "count") = none) →
      translate st key params lang
        = (some key, warn st.config ("Translation for key \"" ++ key ++ "\" is an object, not a string")))
    ∧ (∀ (st : KitState) (key : String) (params : Option (List (String × PValue)))
         (lang : Option String) (fields : List (String × TValue)) (c : PValue),
        resolveTranslation st key (jsOrLang lang st.currentLanguage) = some (.obj fields) →
        (jsGet fields "one").isSome →
        params.bind (fun p => jsGet p "count") = some c →
        translate st key params lang
          = (handlePlural fields c (params.getD []) (jsOrLang lang st.currentLanguage), []))
    ∧ (∀ fields : List (String × TValue),
        isPluralObject fields = true →
        (jsGet fields "one").isSome ∧ (jsGet fields "other").isSome) := by
  refine ⟨?_, ?_, ?_⟩
  · intro st key params lang fields hres hcases
    cases hcases with
    | inl hone => exact translate_obj_without_one st key params lang fields hres hone
    | inr hcount => exact translate_obj_without_count st key params lang fields hres hcount
  · intro st key params lang fields c hres hone hcount
    exact translate_obj_with_count st key params lang fields c hres hone hcount
  · intro fields hp
    by_cases h : (jsGet fields "one").isSome = true ∧ (jsGet fields "other").isSome = true
    · exact ⟨h.1, h.2⟩
    · exfalso
      have : isPluralObject fields = false := by
        unfold isPluralObject
        rw [if_neg]
        intro hcon
        rw [Bool.and_eq_true] at hcon
        exact h hcon
      rw [this] at hp
      exact Bool.false_ne_true hp

/-- A kit exposing a plain nested group (no `one`) under `"grp"`. -/
def nestedGroupState : KitState :=
  { config := { translations := [("en", [("grp", TValue.obj [("leaf", TValue.str "x")])])],
                defaultLanguage := "en" },
    currentLanguage := "en" }

/-- C4 witness: a countless plural-less object returns the key with a
warning even with a count supplied; a one-carrying object with a count goes
through `handlePlural`; the loader's strict shape implies the branch
condition. -/
theorem claim_C4_plural_branch_condition_witness :
    translate nestedGroupState "grp" (some [("count", PValue.n 2)]) none
        = (some "grp", ["[t9nKit] Translation for key \"grp\" is an object, not a string"])
    ∧ translate looseOneState "k" (some [("count", PValue.n 1)]) none
        = (handlePlural loosePluralFields (PValue.n 1) [("count", PValue.n 1)] "en", [])
    ∧ ((jsGet itemsPluralFields "one").isSome ∧ (jsGet itemsPluralFields "other").isSome) := by
  refine ⟨?_, ?_, ?_⟩
  · have h := claim_C4_plural_branch_condition.1 nestedGroupState "grp"
      (some [("count", PValue.n 2)]) none [("leaf", TValue.str "x")] rfl (Or.inl rfl)
    rw [h]
    rfl
  · exact claim_C4_plural_branch_condition.2.1 looseOneState "k"
      (some [("count", PValue.n 1)]) none loosePluralFields (PValue.n 1) rfl rfl rfl
  · exact claim_C4_plural_branch_condition.2.2 itemsPluralFields rfl

/-!  C6: plural-form selection, fallback to `other`, count merging. -/

/-- C6: `getPluralForm` maps a numeric count to `zero`/`one`/`other` by the
`0`/`1`/otherwise rule and ignores the language; inside `translate`, a
resolved plural with a defined count selects that form, falls back to the
`other` template when the selected form's template is absent, merges the
count into the interpolation parameters (even when the template never
mentions it), and interpolates the chosen template; on the spec's vector
(`one`/`other` only, count 0) that yields `"0 items"`. -/
theorem claim_C6_plural_selection :
    (∀ (i : Int) (lang : String),
      getPluralForm (.n i) lang
        = (if i = 0 then .zero else if i = 1 then .one else .other))
    ∧ (∀ (c : PValue) (lang lang' : String), getPluralForm c lang = getPluralForm c lang')
    ∧ (∀ (st : KitState) (key : String) (p : List (String × PValue))
         (langO : Option String) (fields : List (String × TValue)) (c : PValue) (os : String),
        resolveTranslation st key (jsOrLang langO st.currentLanguage) = some (.obj fields) →
        jsGet p "count" = some c →
        (jsGet fields "one").isSome →
        jsGet fields (getPluralForm c (jsOrLang langO st.currentLanguage)).key = none →
        jsGet fields "other" = some (.str os) →
        translate st key (some p) langO = (interpolate os (jsSet p "count" c), []))
    ∧ (∀ (st : KitState) (key : String) (p : List (String × PValue))
         (langO : Option String) (fields : List (String × TValue)) (c : PValue) (s : String),
        resolveTranslation st key (jsOrLang langO st.currentLanguage) = some (.obj fields) →
        jsGet p "count" = some c →
        (jsGet fields "one").isSome →
        jsGet fields (getPluralForm c (jsOrLang langO st.currentLanguage)).key = some (.str s) →
        s ≠ "" →
        translate st key (some p) langO = (interpolate s (jsSet p "count" c), []))
    ∧ (∀ (p : List (String × PValue)) (c : PValue), jsGet (jsSet p "count" c) "count" = some c)
    ∧ translate itemsPluralState "items" (some [("count", PValue.n 0)]) none
        = (some "0 items", []) := by
  refine ⟨?_, ?_, ?_, ?_, ?_, rfl⟩
  · intro i lang
    by_cases h0 : i = 0
    · simp [getPluralForm, h0]
    · by_cases h1 : i = 1
      · simp [getPluralForm, h0, h1]
      · simp [getPluralForm, h0, h1]
  · intro c lang lang'
    rfl
  · intro st key p langO fields c os hres hcount hone hsel hother
    have h := translate_obj_with_count st key (some p) langO fields c hres hone
      (by simpa using hcount)
    rw [h]
    simp [handlePlural, hsel, hother]
  · intro st key p langO fields c s hres hcount hone hsel hs
    have h := translate_obj_with_count st key (some p) langO fields c hres hone
      (by simpa using hcount)
    rw [h]
    simp [handlePlural, hsel, hs]
  · intro p c
    exact jsGet_jsSet_self p "count" c

/-- C6 witness: count 0 with no `zero` template selects `zero`, finds it
absent, falls back to `other` and interpolates the merged count. -/
theorem claim_C6_plural_selection_witness :
    getPluralForm (.n 5) "en" = .other
    ∧ translate itemsPluralState "items" (some [("count", PValue.n 0)]) none
        = (interpolate "{count} items" (jsSet [("count", PValue.n 0)] "count" (PValue.n 0)), [])
    ∧ jsGet (jsSet ([] : List (String × PValue)) "count" (PValue.n 3)) "count"
        = some (PValue.n 3) := by
  refine ⟨?_, ?_, ?_⟩
  · have h := claim_C6_plural_selection.1 5 "en"
    simpa using h
  · exact claim_C6_plural_selection.2.2.1 itemsPluralState "items"
      [("count", PValue.n 0)] none itemsPluralFields (PValue.n 0) "{count} items"
      rfl rfl rfl rfl rfl
  · exact claim_C6_plural_selection.2.2.2.2.1 [] (PValue.n 3)

/-!  C5: interpolation.  The spec-side comparator `specReplaceAll` is the
literal global substitution the spec describes ("replace every occurrence of
`\x7b`paramName`\x7d` with the stringified value"); the implementation-side
`replaceAll` runs the compiled regex.  For parameter names free of regex
metacharacters the two coincide; the counterexample shows they differ on a
name containing `+`. -/

/-- Spec-side (from the spec's words, not the code): replace every
occurrence of `pat` in the input by `repl`, scanning left to right without
overlap; fuel-structural. -/
def specReplaceFuel (pat repl : List Char) : Nat → List Char → List Char
  | 0, s => s
  | _ + 1, [] => []
  | f + 1, d :: s =>
      if charsPrefix pat (d :: s) then
        repl ++ specReplaceFuel pat repl f (List.drop (pat.length - 1) s)
      else d :: specReplaceFuel pat repl f s

/-- Spec-side literal global replacement. -/
def specReplaceAll (pat repl s : List Char) : List Char :=
  specReplaceFuel pat repl (s.length + 1) s

theorem charsPrefix_iff (p s : List Char) : charsPrefix p s = true ↔ p <+: s := by
  induction p generalizing s with
  | nil =>
      constructor
      · intro _
        exact List.nil_prefix
      · intro _
        rfl
  | cons c ps ih =>
      cases s with
      | nil =>
          simp only [charsPrefix]
          simp
      | cons d ss =>
          simp only [charsPrefix, Bool.and_eq_true, decide_eq_true_eq]
          rw [List.cons_prefix_cons]
          exact and_congr Iff.rfl (ih ss)

/-- A safe (non-meta) character compiles to one literal atom. -/
theorem compileAux_cons_safe (c : Char) (rest : List Char) (acc : List RAtom)
    (hb : c ≠ '\\') (hp : c ≠ '+') (hc : c ∉ regexMeta) :
    compileAux (c :: rest) acc = compileAux rest (.lit c :: acc) := by
  rw [compileAux.eq_def]
  simp [hb, hp, hc]

theorem compileAux_safe (cs : List Char) (acc : List RAtom)
    (h : ∀ c ∈ cs, c ∉ regexMeta) :
    compileAux (cs ++ ['\\', '\x7d']) acc
      = some (acc.reverse ++ cs.map RAtom.lit ++ [RAtom.lit '\x7d']) := by
  induction cs generalizing acc with
  | nil => simp [compileAux]
  | cons c cs ih =>
      have hc : c ∉ regexMeta := h c (List.mem_cons_self c cs)
      have hrest : ∀ c2 ∈ cs, c2 ∉ regexMeta := fun c2 hc2 => h c2 (List.mem_cons_of_mem c hc2)
      have hb : c ≠ '\\' := fun hcon => hc (hcon ▸ by simp [regexMeta])
      have hp : c ≠ '+' := fun hcon => hc (hcon ▸ by simp [regexMeta])
      rw [List.cons_append, compileAux_cons_safe c _ acc hb hp hc, ih _ hrest]
      simp

theorem buildPattern_data (key : String) :
    (buildPattern key).data = '\\' :: '\x7b' :: (key.data ++ ['\\', '\x7d']) := by
  simp [buildPattern, String.data_append]

/-- Compiling the pattern built from a metacharacter-free parameter name
yields the literal atoms of `\x7b` ++ name ++ `\x7d`. -/
theorem compile_buildPattern_safe (key : String)
    (h : ∀ c ∈ key.data, c ∉ regexMeta) :
    compileAux (buildPattern key).data []
      = some (('\x7b' :: key.data ++ ['\x7d']).map RAtom.lit) := by
  rw [buildPattern_data]
  have : compileAux ('\\' :: '\x7b' :: (key.data ++ ['\\', '\x7d'])) []
      = compileAux (key.data ++ ['\\', '\x7d']) [RAtom.lit '\x7b'] := by
    simp [compileAux]
  rw [this, compileAux_safe key.data [RAtom.lit '\x7b'] h]
  simp

/-- On a pattern of literals with enough fuel, the matcher is the prefix
test. -/
theorem matchF_lits (pat : List Char) (f : Nat) (s : List Char) (hf : pat.length < f) :
    matchF f (pat.map RAtom.lit) s
      = if charsPrefix pat s then some (s.drop pat.length) else none := by
  induction pat generalizing f s with
  | nil =>
      cases f with
      | zero => omega
      | succ f0 => simp [matchF, charsPrefix]
  | cons c ps ih =>
      cases f with
      | zero => omega
      | succ f0 =>
          cases s with
          | nil => simp [matchF, charsPrefix]
          | cons d tl =>
              by_cases hd : d = c
              · have hpp : charsPrefix (c :: ps) (c :: tl) = charsPrefix ps tl := by
                  simp [charsPrefix]
                simp [matchF, hd, ih f0 tl (by simpa using Nat.lt_of_succ_lt_succ hf), hpp]
              · have : charsPrefix (c :: ps) (d :: tl) = false := by
                  simp [charsPrefix]
                  intro hcon
                  exact absurd hcon.symm hd
                simp [matchF, hd, this]

/-- `matchAtoms` on a literal pattern: the default fuel always suffices. -/
theorem matchAtoms_lits (pat : List Char) (s : List Char) :
    matchAtoms (pat.map RAtom.lit) s
      = if charsPrefix pat s then some (s.drop pat.length) else none := by
  have hf : pat.length < matchFuel (pat.map RAtom.lit) s := by
    simp [matchFuel]
    omega
  exact matchF_lits pat _ s hf

/-- The regex global replacement on a nonempty literal pattern is exactly the
spec's literal global replacement. -/
theorem replAux_eq_specReplace (pat repl : List Char) (hne : pat ≠ []) :
    ∀ (f : Nat) (s : List Char),
      replAux (pat.map RAtom.lit) repl f s = specReplaceFuel pat repl f s := by
  intro f
  induction f with
  | zero =>
      intro s
      rfl
  | succ f0 ih =>
      intro s
      cases s with
      | nil => rfl
      | cons d tl =>
          obtain ⟨p0, ps, rfl⟩ : ∃ p0 ps, pat = p0 :: ps := by
            cases pat with
            | nil => exact absurd rfl hne
            | cons p0 ps => exact ⟨p0, ps, rfl⟩
          rw [replAux, specReplaceFuel, matchAtoms_lits]
          by_cases hp : charsPrefix (p0 :: ps) (d :: tl) = true
          · have hdrop : (d :: tl).drop (p0 :: ps).length = tl.drop ((p0 :: ps).length - 1) := by
              simp
            have hlen : ((d :: tl).drop (p0 :: ps).length).length ≤ tl.length := by
              simp [List.length_drop]
            simp only [hp, if_true]
            rw [if_pos hlen]
            rw [ih, hdrop]
          · simp only [hp]
            simp only [Bool.false_eq_true, if_false]
            rw [ih]

/-- Wrapper: `replaceAll` vs the spec-side replacement. -/
theorem replaceAll_eq_specReplaceAll (pat repl s : List Char) (hne : pat ≠ []) :
    replaceAll (pat.map RAtom.lit) repl s = specReplaceAll pat repl s :=
  replAux_eq_specReplace pat repl hne (s.length + 1) s

/-- If the pattern occurs nowhere in the input, the spec-side replacement
leaves the input untouched. -/
theorem specReplaceFuel_no_occurrence (pat repl : List Char) :
    ∀ (s : List Char) (f : Nat), s.length < f → ¬ (pat <:+: s) →
      specReplaceFuel pat repl f s = s := by
  intro s
  induction s with
  | nil =>
      intro f hf _
      cases f with
      | zero => omega
      | succ f0 => rfl
  | cons d tl ih =>
      intro f hf hocc
      cases f with
      | zero => omega
      | succ f0 =>
          have hpre : charsPrefix pat (d :: tl) = false := by
            rw [Bool.eq_false_iff]
            intro hcon
            exact hocc ((charsPrefix_iff pat (d :: tl)).mp hcon).isInfix
          have htl : ¬ (pat <:+: tl) := fun hcon => hocc (hcon.trans (List.suffix_cons d tl).isInfix)
          rw [specReplaceFuel, hpre]
          simp only [Bool.false_eq_true, if_false]
          have hlt : tl.length < f0 := by
            simp only [List.length_cons] at hf
            omega
          rw [ih f0 hlt htl]

/-- C5 counterexample: the parameter name `"a+"` contains a regex
metacharacter; the unescaped pattern `\\\x7ba+\\\x7d` matches `"\x7baa\x7d"`, so
`interpolate` replaces text that contains no occurrence of the placeholder
`"\x7ba+\x7d"` at all — the claim demands such text stay untouched.  A name
like `"("` even makes the `RegExp` constructor throw. -/
theorem claim_C5_counterexample :
    interpolate "{aa}" [("a+", PValue.s "X")] = some "X"
    ∧ ¬ (("{a+}" : String).data <:+: ("{aa}" : String).data)
    ∧ ("X" : String) ≠ "{aa}"
    ∧ interpolate "hi" [("(", PValue.s "X")] = none := by
  exact ⟨by decide, by decide, by decide, by decide⟩

/-- C5 (amended): for parameter names free of regex metacharacters (and
replacement values without `$`, whose JS replacement escapes are outside the
model), `interpolate` performs exactly the literal global substitution of
`\x7b`name`\x7d` by the stringified value — every occurrence replaced,
everything else untouched; a name whose placeholder never occurs leaves the
template unchanged, as does an empty parameter map; the spec's two identity
vectors hold.  (Names containing metacharacters fall outside this guarantee:
see the counterexample.) -/
theorem claim_C5_interpolation :
    (∀ text : String, interpolate text [] = some text)
    ∧ (∀ (key : String) (v : PValue) (text : String),
        (∀ c ∈ key.data, c ∉ regexMeta) →
        '$' ∉ v.jsString.data →
        interpolate text [(key, v)]
          = some (String.mk (specReplaceAll ('\x7b' :: key.data ++ ['\x7d'])
              v.jsString.data text.data)))
    ∧ (∀ (key : String) (v : PValue) (text : String),
        (∀ c ∈ key.data, c ∉ regexMeta) →
        ¬ (('\x7b' :: key.data ++ ['\x7d']) <:+: text.data) →
        interpolate text [(key, v)] = some text)
    ∧ interpolate "{a} and {a}" [("a", PValue.s "X")] = some "X and X"
    ∧ interpolate "{missing}" [] = some "{missing}" := by
  have hstep : ∀ (key : String) (v : PValue) (text : String),
      (∀ c ∈ key.data, c ∉ regexMeta) →
      interpolate text [(key, v)]
        = some (String.mk (specReplaceAll ('\x7b' :: key.data ++ ['\x7d'])
            v.jsString.data text.data)) := by
    intro key v text hsafe
    have h1 : interpolate text [(key, v)] = interpStep (some text) (key, v) := rfl
    rw [h1]
    simp only [interpStep, compile_buildPattern_safe key hsafe]
    rw [replaceAll_eq_specReplaceAll ('\x7b' :: key.data ++ ['\x7d']) v.jsString.data
      text.data (List.cons_ne_nil _ _)]
  refine ⟨fun text => rfl, fun key v text hsafe _ => hstep key v text hsafe, ?_, by decide, rfl⟩
  intro key v text hsafe hocc
  rw [hstep key v text hsafe]
  rw [specReplaceAll,
    specReplaceFuel_no_occurrence ('\x7b' :: key.data ++ ['\x7d']) v.jsString.data
      text.data (text.data.length + 1) (by omega) hocc]

/-- C5 witness: a safe name replaces both of its occurrences with the value;
a safe name whose placeholder is absent leaves the template untouched. -/
theorem claim_C5_interpolation_witness :
    interpolate "Hello {name}, {name}!" [("name", PValue.s "John")] = some "Hello John, John!"
    ∧ interpolate "{other}" [("name", PValue.s "John")] = some "{other}" := by
  constructor
  · have h := claim_C5_interpolation.2.1 "name" (PValue.s "John") "Hello {name}, {name}!"
      (by decide) (by decide)
    exact h.trans (by rfl)
  · exact claim_C5_interpolation.2.2.1 "name" (PValue.s "John") "{other}"
      (by decide) (by decide)

end T9n
